import Mathlib

namespace CadScripts

/-! Shallow embedding of the cadquery-scripts export pipeline
(`src/utils.py`, `src/template.py`, `src/model.py`, `src/scripts/*.py`).

Solid geometry values are opaque: the embedding is parametric in a type
`Model` standing for `cq.Workplane` values. Filesystem effects are made
explicit as a state `FS Model` threaded through the operations, with
Python exceptions embedded as `Except String`. Paths are lists of path
segments. The generated markdown document is represented as its list of
lines: every `f.write` in `export_cad_model_with_docs` writes chunks that
end in a newline, so the written file is exactly these lines, each
followed by a newline, provided the interpolated values contain no
newline themselves (content theorems carry that proviso as a hypothesis
where it matters). -/

/-- A path, as the list of its segments relative to the working directory. -/
abbrev FPath := List String

/-- A rotation triple `(x, y, z)` in degrees. The program only ever passes
integral literals; the values are opaque to the export pipeline. -/
abbrev Rot := Int × Int × Int

/-- The `opt` dictionary passed to `cq.exporters.export` for SVG exports. -/
structure SvgOpts where
  projection : String
  width : Nat
  height : Nat
  rotation : Rot
  stroke : Nat
  deriving DecidableEq

/-- Contents of a regular file, as written by the pipeline. STL and SVG
serialization is performed by the external kernel; only what was exported
is recorded. -/
inductive FileData (Model : Type) where
  | stl (model : Model)
  | svg (model : Model) (opts : SvgOpts)
  | text (lines : List String)
  deriving DecidableEq

/-- Explicit filesystem state: the directories that exist and the regular
files with their contents. The working directory `[]` always exists
implicitly. -/
structure FS (Model : Type) where
  dirs : List FPath
  files : List (FPath × FileData Model)
  deriving DecidableEq

/-- The content stored at path `p`, when a regular file exists there. -/
def findFile {Model : Type} : List (FPath × FileData Model) → FPath → Option (FileData Model)
  | [], _ => none
  | (q, c) :: rest, p => if q = p then some c else findFile rest p

/-- Remove every entry stored at path `p`. -/
def eraseFile {Model : Type} : List (FPath × FileData Model) → FPath → List (FPath × FileData Model)
  | [], _ => []
  | (q, c) :: rest, p => if q = p then eraseFile rest p else (q, c) :: eraseFile rest p

/-- Names of the files lying directly in directory `d`, among a file list. -/
def dirListing {Model : Type} (l : List (FPath × FileData Model)) (d : FPath) : List String :=
  l.filterMap fun e => if e.1.dropLast = d then e.1.getLast? else none

/-- Names of the regular files lying directly in directory `d`. -/
def filesIn {Model : Type} (fs : FS Model) (d : FPath) : List String :=
  dirListing fs.files d

/-- `Path.mkdir(exist_ok=True)` (no `parents=True`): succeeds silently when
the directory already exists, creates it when its parent directory exists,
raises `FileExistsError` when a regular file occupies the path and
`FileNotFoundError` when the parent directory is missing. -/
def mkdirExistOk {Model : Type} (fs : FS Model) (p : FPath) : Except String (FS Model) :=
  if p ∈ fs.dirs then .ok fs
  else if (findFile fs.files p).isSome then .error "FileExistsError"
  else if p.dropLast = [] ∨ p.dropLast ∈ fs.dirs then .ok { fs with dirs := p :: fs.dirs }
  else .error "FileNotFoundError"

/-- `fs` with the regular file at `p` replaced by content `c`. -/
def FS.withFile {Model : Type} (fs : FS Model) (p : FPath) (c : FileData Model) : FS Model :=
  { fs with files := (p, c) :: eraseFile fs.files p }

/-- `open(path, "w")` followed by writing `c`: requires the parent
directory to exist and the path not to be a directory; an existing regular
file at the path is overwritten. -/
def writeFile {Model : Type} (fs : FS Model) (p : FPath) (c : FileData Model) :
    Except String (FS Model) :=
  if p ∈ fs.dirs then .error "IsADirectoryError"
  else if p.dropLast = [] ∨ p.dropLast ∈ fs.dirs then
    .ok { fs with files := (p, c) :: eraseFile fs.files p }
  else .error "FileNotFoundError"

/-- A `views` mapping: view name to rotation triple (Python dict: the keys
are distinct). -/
abbrev ViewMap := List (String × Rot)

/-- The `opt` dictionary used for every SVG view export in
`export_cad_model` (src/utils.py lines 57-64). -/
def svgViewOpts (rotation : Rot) : SvgOpts :=
  { projection := "orthographic", width := 800, height := 600, rotation := rotation, stroke := 2 }

/-- The `views` defaulting in `export_cad_model` (src/utils.py lines
43-50): `if views is None: views = {"front": (0, 0, 0)}`. -/
def export_resolveViews : Option ViewMap → ViewMap
  | none => [("front", (0, 0, 0))]
  | some vs => vs

/-- The duplicated `views` defaulting in `export_cad_model_with_docs`
(src/utils.py lines 102-109), textually identical to the one in
`export_cad_model`. -/
def docs_resolveViews : Option ViewMap → ViewMap
  | none => [("front", (0, 0, 0))]
  | some vs => vs

/-- File name of the SVG render of view `view` of model `name`
(`f"{name}_{view_name}.svg"`). -/
def svgFileName (name view : String) : String := name ++ "_" ++ view ++ ".svg"

/-- The path `version_dir / f"{name}_{view_name}.svg"` of the SVG render of
view `v`. -/
def svgPath (version_dir : FPath) (name : String) (v : String × Rot) : FPath :=
  version_dir ++ [svgFileName name v.1]

/-- The SVG export loop of `export_cad_model` (src/utils.py lines 52-66). -/
def writeSvgs {Model : Type} (fs : FS Model) (model : Model) (name : String)
    (version_dir : FPath) : ViewMap → Except String (FS Model)
  | [] => .ok fs
  | (view_name, rotation) :: rest => do
      let fs1 ← writeFile fs (svgPath version_dir name (view_name, rotation))
        (.svg model (svgViewOpts rotation))
      writeSvgs fs1 model name version_dir rest

/-- `export_cad_model` (src/utils.py lines 7-71): creates
`base_dir/name/v{version}/` with three non-recursive `mkdir(exist_ok=True)`
calls, writes `name.stl`, then one `name_{view}.svg` per view, and returns
the version directory. -/
def export_cad_model {Model : Type} (fs : FS Model) (model : Model) (name : String)
    (version : Int) (base_dir : FPath) (views : Option ViewMap) :
    Except String (FS Model × FPath) := do
  let project_dir := base_dir ++ [name]
  let version_dir := project_dir ++ ["v" ++ toString version]
  let fs1 ← mkdirExistOk fs base_dir
  let fs2 ← mkdirExistOk fs1 project_dir
  let fs3 ← mkdirExistOk fs2 version_dir
  let fs4 ← writeFile fs3 (version_dir ++ [name ++ ".stl"]) (.stl model)
  let fs5 ← writeSvgs fs4 model name version_dir (export_resolveViews views)
  return (fs5, version_dir)

/-- Bounding-box extents as already rendered by the `f"{bbox.xlen:.2f}"`
formatting; the numeric values come from the external geometry kernel and
are opaque here. -/
structure BBox where
  xlen : String
  ylen : String
  zlen : String
  deriving DecidableEq

/-- Python `str.title()` restricted to ASCII: uppercase every letter that
follows a non-letter, lowercase every letter that follows a letter. -/
def pyTitleAux : Bool → List Char → List Char
  | _, [] => []
  | prevAlpha, c :: cs =>
    if c.isAlpha then (if prevAlpha then c.toLower else c.toUpper) :: pyTitleAux true cs
    else c :: pyTitleAux false cs

/-- Python `str.title()` (ASCII). -/
def pyTitle (s : String) : String := ⟨pyTitleAux false s.data⟩

/-- One `- **key:** value` metadata bullet line. -/
def metaBullet (kv : String × String) : String := "- **" ++ kv.1 ++ ":** " ++ kv.2

/-- The three lines written for one view in the gallery section
(src/utils.py lines 142-146). -/
def viewGalleryLines (name : String) (v : String × Rot) : List String :=
  ["### " ++ pyTitle v.1 ++ " View", "![](./" ++ svgFileName name v.1 ++ ")", ""]

/-- The dimensions section appended when the bounding-box computation
succeeds (src/utils.py lines 148-158); nothing at all is written when it
raises, because `model.val().BoundingBox()` is the first statement of the
`try` block. -/
def bboxSection : Option BBox → List String
  | none => []
  | some b => ["## Model Dimensions", "", "```", "X: " ++ b.xlen ++ " mm",
      "Y: " ++ b.ylen ++ " mm", "Z: " ++ b.zlen ++ " mm", "```"]

/-- The two header lines `f"# {name} (v{version})\n\n"` (src/utils.py
line 116). -/
def mdHeader (name : String) (version : Int) : List String :=
  ["# " ++ name ++ " (v" ++ toString version ++ ")", ""]

/-- Every line written after the optional description block: the metadata
section (src/utils.py lines 122-132), the files index (lines 134-138), the
view gallery (lines 140-146) and the optional dimensions section (lines
148-158). -/
def mdTail (name : String) (version : Int) (timestamp : String)
    (additional_metadata : List (String × String)) (views : ViewMap)
    (bbox : Option BBox) : List String :=
  ["## Metadata", "",
      "- **Generated:** " ++ timestamp,
      "- **Model Name:** " ++ name,
      "- **Version:** " ++ toString version]
    ++ (if additional_metadata = [] then [] else additional_metadata.map metaBullet)
    ++ [""]
    ++ ["## Generated Files", "",
        "- STL File: [" ++ name ++ ".stl](./" ++ name ++ ".stl)",
        "- SVG Views:"]
    ++ ["", "## Model Views", ""]
    ++ (views.map (viewGalleryLines name)).flatten
    ++ bboxSection bbox

/-- The lines of the markdown document written by
`export_cad_model_with_docs` (src/utils.py lines 114-158). `timestamp` is
the `datetime.now().strftime("%Y-%m-%d %H:%M:%S")` value and `bbox` the
outcome of `model.val().BoundingBox()`. Python `None` for
`additional_metadata` is the empty list (both are falsy, and iterating an
empty dict writes nothing). -/
def mdLines (name : String) (version : Int) (description : String) (timestamp : String)
    (additional_metadata : List (String × String)) (views : ViewMap)
    (bbox : Option BBox) : List String :=
  mdHeader name version
    ++ (if description = "" then [] else ["## Description", description, ""])
    ++ mdTail name version timestamp additional_metadata views bbox

/-- `export_cad_model_with_docs` (src/utils.py lines 74-161): runs
`export_cad_model`, then writes `name.md` into the returned version
directory. The ambient inputs `timestamp` (wall clock) and `bbox` (the
geometry kernel's bounding-box computation, `none` when it raises) are
passed explicitly. -/
def export_cad_model_with_docs {Model : Type} (fs : FS Model) (model : Model)
    (name : String) (version : Int) (description : String) (base_dir : FPath)
    (views : Option ViewMap) (additional_metadata : List (String × String))
    (timestamp : String) (bbox : Model → Option BBox) :
    Except String (FS Model × FPath) := do
  let r ← export_cad_model fs model name version base_dir views
  let fs1 ← writeFile r.1 (r.2 ++ [name ++ ".md"])
    (.text (mdLines name version description timestamp additional_metadata
      (docs_resolveViews views) (bbox model)))
  return (fs1, r.2)

/-- Python truthiness of an `os.getenv` result: `None` (unset) and the
empty string are falsy, any other string is truthy. -/
def envTruthy : Option String → Bool
  | none => false
  | some s => s ≠ ""

/-- Observable steps of a `run` call. `exportDocs` stands for the
unconditional call `export_cad_model_with_docs(model, self.name,
self.version)` with all remaining arguments left at their defaults. -/
inductive RunAction (Model : Type) where
  | display (model : Model)
  | exportDocs (model : Model) (name : String) (version : Int)
  deriving DecidableEq

/-- Whether a step is the export-pipeline invocation. -/
def RunAction.isExport {Model : Type} : RunAction Model → Bool
  | .exportDocs .. => true
  | _ => false

/-- `PrintableModel.run` (src/template.py lines 45-49): create the model,
`show_object` it when `SHOW_DISPLAY` is truthy, then always call
`export_cad_model_with_docs(model, self.name, self.version)`. -/
def templateRun {Model : Type} (showDisplayEnv : Option String) (model : Model)
    (name : String) (version : Int) : List (RunAction Model) :=
  (if envTruthy showDisplayEnv then [.display model] else [])
    ++ [.exportDocs model name version]

/-- `PrintableModelBase.run` (src/model.py lines 26-29): `show_object`
unless `HIDE_DISPLAY` is truthy, then always export. -/
def baseRun {Model : Type} (hideDisplayEnv : Option String) (model : Model)
    (name : String) (version : Int) : List (RunAction Model) :=
  (if envTruthy hideDisplayEnv then [] else [.display model])
    ++ [.exportDocs model name version]

/-- `os.path.basename`: everything after the last path separator. -/
def basename (s : String) : String := ⟨(s.data.reverse.takeWhile fun c => c ≠ '/').reverse⟩

/-- Length, dot included, of the `os.path.splitext` extension of a path
component: the part from the last dot on, except that a component whose
characters before that last dot are all dots has no extension. -/
def extLen (cs : List Char) : Nat :=
  let afterDot := cs.reverse.takeWhile fun c => c ≠ '.'
  if afterDot.length = cs.length then 0
  else if (cs.take (cs.length - (afterDot.length + 1))).all fun c => c = '.' then 0
  else afterDot.length + 1

/-- The inherited `name` property (src/template.py lines 20-27, identical
in src/model.py lines 19-24): `os.path.splitext(os.path.basename(f))[0]`
where `f = inspect.getfile(self.__class__)`. -/
def defaultName (implFile : String) : String :=
  let base := (basename implFile).data
  ⟨base.take (base.length - extLen base)⟩

/-- The concrete model variants defined under `scripts/`; `holeCover`
carries the externally assigned `custom_name` attribute. -/
inductive Variant where
  | iPadPro129Model
  | ipadStandClip
  | iPadStand
  | massageGunAttachment
  | mountingPlate
  | simplePlate
  | holeCover (custom_name : String)
  deriving DecidableEq

/-- The file defining each variant's class (the `inspect.getfile` value,
repo-relative). -/
def Variant.implFile : Variant → String
  | .iPadPro129Model => "scripts/ipad-pro-12-9.py"
  | .ipadStandClip => "scripts/ipad-stand-clip.py"
  | .iPadStand => "scripts/ipad-stand.py"
  | .massageGunAttachment => "scripts/massage-gun-attachment.py"
  | .mountingPlate => "scripts/mounting-plate.py"
  | .simplePlate => "scripts/treadmill-cover.py"
  | .holeCover _ => "scripts/treadmill-cover.py"

/-- The `name` each variant actually uses for output paths: the inherited
file-derived default, except that `SimplePlate` overrides the property
with the hardcoded string "treadmil-cover"
(src/scripts/treadmill-cover.py lines 102-104) and `HoleCover` with its
`custom_name` attribute (lines 182-184). -/
def Variant.name : Variant → String
  | .simplePlate => "treadmil-cover"
  | .holeCover c => c
  | v => defaultName v.implFile

/-! ### Generic helper lemmas: strings, paths, file lists -/

theorem sdata_append (a b : String) : (a ++ b).data = a.data ++ b.data := by
  cases a; cases b; rfl

theorem str_eq_of_data {a b : String} (h : a.data = b.data) : a = b := by
  cases a; cases b; exact congrArg String.mk h

theorem str_append_cancel_left {a b c : String} (h : a ++ b = a ++ c) : b = c := by
  have hd := congrArg String.data h
  rw [sdata_append, sdata_append] at hd
  exact str_eq_of_data (List.append_cancel_left hd)

theorem str_append_cancel_right {a b c : String} (h : a ++ c = b ++ c) : a = b := by
  have hd := congrArg String.data h
  rw [sdata_append, sdata_append] at hd
  exact str_eq_of_data (List.append_cancel_right hd)

theorem str_append_ne (a t u : String) (h : u.data.take a.data.length ≠ a.data) :
    a ++ t ≠ u := by
  intro he
  apply h
  rw [← he, sdata_append]
  exact List.take_left a.data t.data

theorem stlName_ne_mdName (n : String) : n ++ ".stl" ≠ n ++ ".md" := by
  intro h
  exact absurd (str_append_cancel_left h) (by decide)

theorem svgFileName_ne_stlName (n v : String) : svgFileName n v ≠ n ++ ".stl" := by
  intro h
  rw [svgFileName, String.append_assoc, String.append_assoc] at h
  have := str_append_cancel_left h
  exact str_append_ne "_" (v ++ ".svg") ".stl" (by decide) this

theorem svgFileName_ne_mdName (n v : String) : svgFileName n v ≠ n ++ ".md" := by
  intro h
  rw [svgFileName, String.append_assoc, String.append_assoc] at h
  have := str_append_cancel_left h
  exact str_append_ne "_" (v ++ ".svg") ".md" (by decide) this

theorem svgFileName_inj (n : String) {v w : String} (h : svgFileName n v = svgFileName n w) :
    v = w := by
  rw [svgFileName, svgFileName] at h
  exact str_append_cancel_left (str_append_cancel_right h)

theorem snoc_inj {p : FPath} {x y : String} (h : p ++ [x] = p ++ [y]) : x = y := by
  simpa using List.append_cancel_left h

theorem snoc_ne_of_ne {p : FPath} {x y : String} (h : x ≠ y) : p ++ [x] ≠ p ++ [y] :=
  fun he => h (snoc_inj he)

theorem fpath_ne_of_length {p q : FPath} (h : p.length ≠ q.length) : p ≠ q :=
  fun he => h (congrArg List.length he)

theorem snoc_ne_self (p : FPath) (x : String) : p ++ [x] ≠ p :=
  fpath_ne_of_length (by simp)

@[simp] theorem findFile_nil {Model : Type} (p : FPath) :
    findFile ([] : List (FPath × FileData Model)) p = none := rfl

@[simp] theorem findFile_cons {Model : Type} (q : FPath) (c : FileData Model)
    (rest : List (FPath × FileData Model)) (p : FPath) :
    findFile ((q, c) :: rest) p = if q = p then some c else findFile rest p := rfl

theorem findFile_eraseFile {Model : Type} (l : List (FPath × FileData Model)) (p q : FPath) :
    findFile (eraseFile l p) q = if q = p then none else findFile l q := by
  induction l with
  | nil => by_cases h : q = p <;> simp [eraseFile, h]
  | cons e rest ih =>
    obtain ⟨r, c⟩ := e
    by_cases hrp : r = p <;> by_cases hqp : q = p <;> by_cases hrq : r = q <;>
      simp_all [eraseFile, findFile]

theorem eraseFile_of_findFile_none {Model : Type} {l : List (FPath × FileData Model)} {p : FPath}
    (h : findFile l p = none) : eraseFile l p = l := by
  induction l with
  | nil => rfl
  | cons e rest ih =>
    obtain ⟨r, c⟩ := e
    by_cases hrp : r = p
    · simp [findFile, hrp] at h
    · simp [findFile, hrp] at h
      simp [eraseFile, hrp, ih h]

theorem eraseFile_cons_self {Model : Type} (l : List (FPath × FileData Model)) (p : FPath)
    (c : FileData Model) : eraseFile ((p, c) :: eraseFile l p) p = eraseFile l p := by
  have h : findFile (eraseFile l p) p = none := by simp [findFile_eraseFile]
  simp [eraseFile, eraseFile_of_findFile_none h]

theorem findFile_write {Model : Type} (l : List (FPath × FileData Model)) (p : FPath)
    (c : FileData Model) (q : FPath) :
    findFile ((p, c) :: eraseFile l p) q = if p = q then some c else findFile l q := by
  by_cases h : p = q
  · simp [findFile, h]
  · simp [findFile, h, findFile_eraseFile, Ne.symm h]

theorem findFile_some_of_mem {Model : Type} {l : List (FPath × FileData Model)} {p : FPath}
    {c : FileData Model} (h : (p, c) ∈ l) : (findFile l p).isSome := by
  induction l with
  | nil => simp at h
  | cons e rest ih =>
    obtain ⟨r, cr⟩ := e
    rcases List.mem_cons.mp h with h1 | h1
    · injection h1 with h2 h3
      subst h2
      simp [findFile]
    · by_cases hrp : r = p
      · simp [findFile, hrp]
      · simpa [findFile, hrp] using ih h1

@[simp] theorem dirListing_nil {Model : Type} (d : FPath) :
    dirListing ([] : List (FPath × FileData Model)) d = [] := rfl

theorem dirListing_cons_in {Model : Type} (x : String) (c : FileData Model)
    (rest : List (FPath × FileData Model)) (d : FPath) :
    dirListing ((d ++ [x], c) :: rest) d = x :: dirListing rest d := by
  simp [dirListing, List.filterMap_cons, List.dropLast_concat, List.getLast?_concat]

theorem dirListing_cons_out {Model : Type} (p : FPath) (c : FileData Model)
    (rest : List (FPath × FileData Model)) (d : FPath)
    (h : (if p.dropLast = d then p.getLast? else none) = none) :
    dirListing ((p, c) :: rest) d = dirListing rest d := by
  simp only [dirListing, List.filterMap_cons, h]

theorem dirListing_eq_nil {Model : Type} (l : List (FPath × FileData Model)) (d : FPath)
    (h : ∀ x, findFile l (d ++ [x]) = none) : dirListing l d = [] := by
  induction l with
  | nil => rfl
  | cons e rest ih =>
    obtain ⟨p, c⟩ := e
    have hrest : ∀ x, findFile rest (d ++ [x]) = none := by
      intro x
      have hx := h x
      by_cases hpk : p = d ++ [x]
      · simp [findFile, hpk] at hx
      · simpa [findFile, hpk] using hx
    by_cases hd : p.dropLast = d
    · rcases List.eq_nil_or_concat p with hp | ⟨q, x, hp⟩
      · subst hp
        rw [dirListing_cons_out _ _ _ _ (by simp)]
        exact ih hrest
      · rw [List.concat_eq_append] at hp
        subst hp
        rw [List.dropLast_concat] at hd
        subst hd
        have hx := h x
        simp [findFile] at hx
    · rw [dirListing_cons_out _ _ _ _ (by rw [if_neg hd])]
      exact ih hrest

/-! ### Stepping lemmas for the filesystem operations -/

theorem except_bind_ok {ε α β : Type} {x : Except ε α} {f : α → Except ε β} {b : β}
    (h : x >>= f = .ok b) : ∃ a, x = .ok a ∧ f a = .ok b := by
  cases x with
  | error e => simp [Bind.bind, Except.bind] at h
  | ok a => exact ⟨a, rfl, h⟩

theorem mkdirExistOk_mem {Model : Type} {fs : FS Model} {p : FPath} (h : p ∈ fs.dirs) :
    mkdirExistOk fs p = .ok fs := by
  unfold mkdirExistOk
  rw [if_pos h]

theorem mkdirExistOk_ok {Model : Type} {fs fs2 : FS Model} {p : FPath}
    (h : mkdirExistOk fs p = .ok fs2) :
    fs2.files = fs.files ∧ p ∈ fs2.dirs ∧ fs.dirs ⊆ fs2.dirs ∧ fs2.dirs ⊆ p :: fs.dirs := by
  unfold mkdirExistOk at h
  split at h
  · injection h with h1
    subst h1
    exact ⟨rfl, by assumption, fun q hq => hq, fun q hq => List.mem_cons_of_mem _ hq⟩
  · split at h
    · exact Except.noConfusion h
    · split at h
      · injection h with h1
        subst h1
        exact ⟨rfl, List.mem_cons_self _ _, fun q hq => List.mem_cons_of_mem _ hq,
          fun q hq => hq⟩
      · exact Except.noConfusion h

theorem mkdirExistOk_succeeds {Model : Type} {fs : FS Model} {p : FPath}
    (h : p ∈ fs.dirs ∨ (findFile fs.files p = none ∧ (p.dropLast = [] ∨ p.dropLast ∈ fs.dirs))) :
    ∃ fs2, mkdirExistOk fs p = .ok fs2 := by
  rcases h with h | ⟨h1, h2⟩
  · exact ⟨fs, mkdirExistOk_mem h⟩
  · by_cases hm : p ∈ fs.dirs
    · exact ⟨fs, mkdirExistOk_mem hm⟩
    · refine ⟨{ fs with dirs := p :: fs.dirs }, ?_⟩
      unfold mkdirExistOk
      rw [if_neg hm, h1]
      simp only [Option.isSome_none, Bool.false_eq_true, if_false]
      rw [if_pos h2]

theorem writeFile_ok {Model : Type} {fs fs2 : FS Model} {p : FPath} {c : FileData Model}
    (h : writeFile fs p c = .ok fs2) :
    fs2 = { fs with files := (p, c) :: eraseFile fs.files p } ∧ p ∉ fs.dirs ∧
      (p.dropLast = [] ∨ p.dropLast ∈ fs.dirs) := by
  unfold writeFile at h
  split at h
  · exact Except.noConfusion h
  · split at h
    · injection h with h1
      exact ⟨h1.symm, by assumption, by assumption⟩
    · exact Except.noConfusion h

theorem writeFile_succeeds {Model : Type} (fs : FS Model) (p : FPath) (c : FileData Model)
    (h1 : p ∉ fs.dirs) (h2 : p.dropLast = [] ∨ p.dropLast ∈ fs.dirs) :
    writeFile fs p c = .ok { fs with files := (p, c) :: eraseFile fs.files p } := by
  unfold writeFile
  rw [if_neg h1, if_pos h2]

theorem writeFile_succeeds_ex {Model : Type} (fs : FS Model) (p : FPath) (c : FileData Model)
    (h1 : p ∉ fs.dirs) (h2 : p.dropLast = [] ∨ p.dropLast ∈ fs.dirs) :
    ∃ fs2, writeFile fs p c = .ok fs2 ∧ fs2.dirs = fs.dirs ∧
      fs2.files = (p, c) :: eraseFile fs.files p :=
  ⟨_, writeFile_succeeds fs p c h1 h2, rfl, rfl⟩

theorem svgPath_inj {vdir : FPath} {name : String} {v w : String × Rot}
    (h : svgPath vdir name v = svgPath vdir name w) : v.1 = w.1 :=
  svgFileName_inj name (snoc_inj h)

theorem writeSvgs_ok {Model : Type} {m : Model} {name : String} {vdir : FPath} :
    ∀ {vs : ViewMap} {fs fs2 : FS Model}, writeSvgs fs m name vdir vs = .ok fs2 →
      fs2.dirs = fs.dirs ∧
      (∀ v ∈ vs, svgPath vdir name v ∉ fs.dirs) ∧
      (∀ p, (∀ v ∈ vs, p ≠ svgPath vdir name v) →
        findFile fs2.files p = findFile fs.files p)
  | [], fs, fs2, h => by
    injection h with h1
    subst h1
    exact ⟨rfl, by simp, fun p _ => rfl⟩
  | (vn, rot) :: rest, fs, fs2, h => by
    rw [writeSvgs] at h
    obtain ⟨fs1, hw, h⟩ := except_bind_ok h
    obtain ⟨hfs1, hnd, hpar⟩ := writeFile_ok hw
    subst hfs1
    obtain ⟨hdirs, hnds, hframe⟩ := writeSvgs_ok h
    refine ⟨hdirs, ?_, ?_⟩
    · intro v hv
      rcases List.mem_cons.mp hv with hv | hv
      · subst hv
        exact hnd
      · exact hnds v hv
    · intro p hp
      rw [hframe p fun v hv => hp v (List.mem_cons_of_mem _ hv)]
      rw [findFile_write]
      rw [if_neg fun he => hp (vn, rot) (List.mem_cons_self _ _) he.symm]

theorem writeSvgs_ok_content {Model : Type} {m : Model} {name : String} {vdir : FPath} :
    ∀ {vs : ViewMap} {fs fs2 : FS Model}, (vs.map Prod.fst).Nodup →
      writeSvgs fs m name vdir vs = .ok fs2 →
      ∀ v ∈ vs, findFile fs2.files (svgPath vdir name v) = some (.svg m (svgViewOpts v.2))
  | [], fs, fs2, _, _, v, hv => by simp at hv
  | (vn, rot) :: rest, fs, fs2, hnodup, h, v, hv => by
    rw [writeSvgs] at h
    obtain ⟨fs1, hw, h⟩ := except_bind_ok h
    obtain ⟨hfs1, _, _⟩ := writeFile_ok hw
    subst hfs1
    rw [List.map_cons, List.nodup_cons] at hnodup
    rcases List.mem_cons.mp hv with hv1 | hv1
    · subst hv1
      obtain ⟨_, _, hframe⟩ := writeSvgs_ok h
      have hcond : ∀ w ∈ rest, svgPath vdir name (vn, rot) ≠ svgPath vdir name w := by
        intro w hw2 he
        exact hnodup.1 (List.mem_map.mpr ⟨w, hw2, (svgPath_inj he).symm⟩)
      rw [hframe _ hcond, findFile_write, if_pos rfl]
    · exact writeSvgs_ok_content hnodup.2 h v hv1

theorem writeSvgs_ok_files {Model : Type} {m : Model} {name : String} {vdir : FPath} :
    ∀ {vs : ViewMap} {fs fs2 : FS Model}, (vs.map Prod.fst).Nodup →
      (∀ v ∈ vs, findFile fs.files (svgPath vdir name v) = none) →
      writeSvgs fs m name vdir vs = .ok fs2 →
      fs2.files = (vs.map fun v =>
        (svgPath vdir name v, FileData.svg m (svgViewOpts v.2))).reverse ++ fs.files
  | [], fs, fs2, _, _, h => by
    injection h with h1
    subst h1
    simp
  | (vn, rot) :: rest, fs, fs2, hnodup, hfresh, h => by
    rw [writeSvgs] at h
    obtain ⟨fs1, hw, h⟩ := except_bind_ok h
    obtain ⟨hfs1, _, _⟩ := writeFile_ok hw
    subst hfs1
    rw [List.map_cons, List.nodup_cons] at hnodup
    rw [eraseFile_of_findFile_none (hfresh _ (List.mem_cons_self _ _))] at h
    have hfresh1 : ∀ v ∈ rest,
        findFile ((svgPath vdir name (vn, rot), FileData.svg m (svgViewOpts rot)) :: fs.files)
          (svgPath vdir name v) = none := by
      intro v hv
      have hne : svgPath vdir name (vn, rot) ≠ svgPath vdir name v := by
        intro he
        exact hnodup.1 (List.mem_map.mpr ⟨v, hv, (svgPath_inj he).symm⟩)
      rw [findFile_cons, if_neg hne]
      exact hfresh v (List.mem_cons_of_mem _ hv)
    rw [writeSvgs_ok_files hnodup.2 hfresh1 h]
    simp [List.append_assoc]

theorem writeSvgs_succeeds {Model : Type} {m : Model} {name : String} {vdir : FPath} :
    ∀ {vs : ViewMap} {fs : FS Model}, (vdir = [] ∨ vdir ∈ fs.dirs) →
      (∀ v ∈ vs, svgPath vdir name v ∉ fs.dirs) →
      ∃ fs2, writeSvgs fs m name vdir vs = .ok fs2
  | [], fs, _, _ => ⟨fs, rfl⟩
  | (vn, rot) :: rest, fs, hv, hnd => by
    have hw := writeFile_succeeds fs (svgPath vdir name (vn, rot))
      (.svg m (svgViewOpts rot)) (hnd _ (List.mem_cons_self _ _))
      (by rw [svgPath, List.dropLast_concat]; exact hv)
    set fs1 : FS Model := { fs with
      files := (svgPath vdir name (vn, rot), FileData.svg m (svgViewOpts rot)) ::
        eraseFile fs.files (svgPath vdir name (vn, rot)) } with hfs1
    obtain ⟨fs2, h2⟩ := @writeSvgs_succeeds Model m name vdir rest fs1
      hv (fun v hv2 => hnd v (List.mem_cons_of_mem _ hv2))
    exact ⟨fs2, by rw [writeSvgs, hw]; exact h2⟩

theorem stlPath_ne_svgPath (d : FPath) (name : String) (v : String × Rot) :
    d ++ [name ++ ".stl"] ≠ svgPath d name v :=
  snoc_ne_of_ne fun he => svgFileName_ne_stlName name v.1 he.symm

theorem mdPath_ne_svgPath (d : FPath) (name : String) (v : String × Rot) :
    d ++ [name ++ ".md"] ≠ svgPath d name v :=
  snoc_ne_of_ne fun he => svgFileName_ne_mdName name v.1 he.symm

theorem mdPath_ne_stlPath (d : FPath) (name : String) :
    d ++ [name ++ ".md"] ≠ d ++ [name ++ ".stl"] :=
  snoc_ne_of_ne fun he => stlName_ne_mdName name he.symm

/-- Everything a successful `export_cad_model` call guarantees: the
returned directory is `base_dir/name/v{version}`; the three directories
exist afterwards and no other directory was created; the STL file holds
the exported model; file paths other than the written artifacts are
untouched; and, when the view names are distinct (a Python dict cannot
repeat keys), each SVG file holds its view's render. `fs3` is the state
after the three `mkdir` calls. -/
theorem export_cad_model_ok {Model : Type} {fs : FS Model} {m : Model} {name : String}
    {version : Int} {base_dir : FPath} {views : Option ViewMap} {fsf : FS Model} {d : FPath}
    (h : export_cad_model fs m name version base_dir views = .ok (fsf, d)) :
    d = base_dir ++ [name] ++ ["v" ++ toString version] ∧
    ∃ fs3 : FS Model,
      fs3.files = fs.files ∧
      base_dir ∈ fs3.dirs ∧ base_dir ++ [name] ∈ fs3.dirs ∧ d ∈ fs3.dirs ∧
      fs.dirs ⊆ fs3.dirs ∧
      fs3.dirs ⊆ d :: (base_dir ++ [name]) :: base_dir :: fs.dirs ∧
      fsf.dirs = fs3.dirs ∧
      d ++ [name ++ ".stl"] ∉ fs3.dirs ∧
      (∀ v ∈ export_resolveViews views, svgPath d name v ∉ fs3.dirs) ∧
      findFile fsf.files (d ++ [name ++ ".stl"]) = some (.stl m) ∧
      (∀ p, p ≠ d ++ [name ++ ".stl"] →
        (∀ v ∈ export_resolveViews views, p ≠ svgPath d name v) →
        findFile fsf.files p = findFile fs.files p) ∧
      (((export_resolveViews views).map Prod.fst).Nodup →
        (∀ v ∈ export_resolveViews views, findFile fsf.files (svgPath d name v) =
          some (.svg m (svgViewOpts v.2))) ∧
        ((∀ x, findFile fs.files (d ++ [x]) = none) →
          fsf.files = ((export_resolveViews views).map fun v =>
            (svgPath d name v, FileData.svg m (svgViewOpts v.2))).reverse ++
            ((d ++ [name ++ ".stl"], FileData.stl m) :: fs.files))) := by
  simp only [export_cad_model] at h
  obtain ⟨fs1, h1, h⟩ := except_bind_ok h
  obtain ⟨fs2, h2, h⟩ := except_bind_ok h
  obtain ⟨fs3, h3, h⟩ := except_bind_ok h
  obtain ⟨fs4, h4, h⟩ := except_bind_ok h
  obtain ⟨fs5, h5, h⟩ := except_bind_ok h
  simp only [pure, Except.pure] at h
  injection h with h6
  have h7 : fs5 = fsf := congrArg Prod.fst h6
  have h8 : base_dir ++ [name] ++ ["v" ++ toString version] = d := congrArg Prod.snd h6
  subst h7
  subst h8
  obtain ⟨hf1, hb1, hsub1, hsup1⟩ := mkdirExistOk_ok h1
  obtain ⟨hf2, hb2, hsub2, hsup2⟩ := mkdirExistOk_ok h2
  obtain ⟨hf3, hb3, hsub3, hsup3⟩ := mkdirExistOk_ok h3
  obtain ⟨hfs4, hstl_nd, hstl_par⟩ := writeFile_ok h4
  subst hfs4
  obtain ⟨hdirs5, hsvg_nd, hframe5⟩ := writeSvgs_ok h5
  refine ⟨rfl, fs3, ?_, ?_, ?_, hb3, ?_, ?_, ?_, hstl_nd, ?_, ?_, ?_, ?_⟩
  · rw [hf3, hf2, hf1]
  · exact hsub3 (hsub2 hb1)
  · exact hsub3 hb2
  · exact fun q hq => hsub3 (hsub2 (hsub1 hq))
  · intro q hq
    rcases List.mem_cons.mp (hsup3 hq) with hq | hq
    · exact List.mem_cons.mpr (Or.inl hq)
    rcases List.mem_cons.mp (hsup2 hq) with hq | hq
    · exact List.mem_cons.mpr (Or.inr (List.mem_cons.mpr (Or.inl hq)))
    rcases List.mem_cons.mp (hsup1 hq) with hq | hq
    · exact List.mem_cons.mpr (Or.inr (List.mem_cons.mpr (Or.inr
        (List.mem_cons.mpr (Or.inl hq)))))
    · exact List.mem_cons.mpr (Or.inr (List.mem_cons.mpr (Or.inr
        (List.mem_cons.mpr (Or.inr hq)))))
  · exact hdirs5
  · exact fun v hv => hsvg_nd v hv
  · rw [hframe5 _ fun v hv => stlPath_ne_svgPath _ _ _]
    rw [findFile_write, if_pos rfl]
  · intro p hp1 hp2
    rw [hframe5 p hp2, findFile_write, if_neg fun he => hp1 he.symm, hf3, hf2, hf1]
  · intro hnodup
    constructor
    · exact fun v hv => writeSvgs_ok_content hnodup h5 v hv
    · intro hfresh
      have hst : findFile fs3.files (base_dir ++ [name] ++ ["v" ++ toString version]
          ++ [name ++ ".stl"]) = none := by
        rw [hf3, hf2, hf1]; exact hfresh _
      rw [writeSvgs_ok_files hnodup ?_ h5]
      · rw [eraseFile_of_findFile_none hst, hf3, hf2, hf1]
      · intro v hv
        rw [findFile_cons, if_neg (stlPath_ne_svgPath _ _ _), findFile_eraseFile,
          if_neg fun he => stlPath_ne_svgPath _ _ _ he.symm, hf3, hf2, hf1]
        exact hfresh _

/-- A successful `export_cad_model_with_docs` call is the inner
`export_cad_model` call followed by the markdown write. -/
theorem export_docs_ok {Model : Type} {fs : FS Model} {m : Model} {name : String}
    {version : Int} {description : String} {base_dir : FPath} {views : Option ViewMap}
    {meta : List (String × String)} {ts : String} {bbox : Model → Option BBox}
    {fsf : FS Model} {d : FPath}
    (h : export_cad_model_with_docs fs m name version description base_dir views meta ts bbox
      = .ok (fsf, d)) :
    ∃ fsx : FS Model, export_cad_model fs m name version base_dir views = .ok (fsx, d) ∧
      writeFile fsx (d ++ [name ++ ".md"])
        (.text (mdLines name version description ts meta (docs_resolveViews views) (bbox m)))
        = .ok fsf := by
  simp only [export_cad_model_with_docs] at h
  obtain ⟨r, hr, h⟩ := except_bind_ok h
  obtain ⟨fs1, hw, h⟩ := except_bind_ok h
  simp only [pure, Except.pure] at h
  injection h with h6
  have h7 : fs1 = fsf := congrArg Prod.fst h6
  have h8 : r.2 = d := congrArg Prod.snd h6
  subst h7
  subst h8
  exact ⟨r.1, hr, hw⟩

theorem except_ok_bind {ε α β : Type} (a : α) (f : α → Except ε β) :
    ((Except.ok a : Except ε α) >>= f) = f a := rfl

theorem except_pure_eq_ok {ε α : Type} (a : α) : (pure a : Except ε α) = .ok a := rfl

/-! ### Concrete runs used by the claim witnesses -/

/-- A concrete bounding box as reported by the geometry kernel. -/
def wBB : BBox := ⟨"10.00", "20.00", "5.00"⟩

/-- A concrete successful export-with-docs run on an empty filesystem. -/
def wRun : Except String (FS Nat × FPath) :=
  @export_cad_model_with_docs Nat ⟨[], []⟩ 7 "widget" 1 "a sample part"
    ["models"] none [("Material", "PLA")] "2026-01-01 12:00:00" fun _ => some wBB

/-- The state and version directory `wRun` produces. -/
def wRes : FS Nat × FPath := wRun.toOption.getD (⟨[], []⟩, [])

/-! ### The claims -/

/-- C3 counterexample: `SimplePlate` is a model variant whose output name
is the hardcoded string "treadmil-cover", not the basename without
extension of its defining file `scripts/treadmill-cover.py` (which is
"treadmill-cover"), so the name used for output paths does not always
equal the file-derived name. -/
theorem C3_counterexample :
    Variant.simplePlate.name = "treadmil-cover" ∧
    defaultName Variant.simplePlate.implFile = "treadmill-cover" ∧
    Variant.simplePlate.name ≠ defaultName Variant.simplePlate.implFile :=
  ⟨rfl, by decide, by decide⟩

/-- C3 (amended): the name a variant uses for output paths defaults to the
basename-without-extension of its defining file via the inherited `name`
property, and the five non-overriding variants use exactly that; but a
variant may override the property: `SimplePlate` hardcodes
"treadmil-cover" and `HoleCover` returns its externally assigned
`custom_name`. -/
theorem C3_name_default_and_overrides :
    Variant.iPadPro129Model.name = defaultName Variant.iPadPro129Model.implFile ∧
    Variant.ipadStandClip.name = defaultName Variant.ipadStandClip.implFile ∧
    Variant.iPadStand.name = defaultName Variant.iPadStand.implFile ∧
    Variant.massageGunAttachment.name = defaultName Variant.massageGunAttachment.implFile ∧
    Variant.mountingPlate.name = defaultName Variant.mountingPlate.implFile ∧
    Variant.simplePlate.name = "treadmil-cover" ∧
    (∀ c : String, (Variant.holeCover c).name = c) :=
  ⟨rfl, rfl, rfl, rfl, rfl, rfl, fun _ => rfl⟩

/-- C5: both `run` implementations perform the export-pipeline call with
the model's name and version exactly once, whatever the display
environment toggle holds (unset, set to the empty string, or set to any
other value); the toggle gates only the interactive display step. -/
theorem C5_run_exports_once {Model : Type} (env : Option String) (m : Model)
    (name : String) (version : Int) :
    (templateRun env m name version).filter (fun a => a.isExport) =
      [.exportDocs m name version] ∧
    (baseRun env m name version).filter (fun a => a.isExport) =
      [.exportDocs m name version] := by
  by_cases h : envTruthy env <;>
    simp [templateRun, baseRun, h, RunAction.isExport]

/-- C8: when `views` is omitted (None), both defaulting sites produce the
single view "front" with rotation (0, 0, 0); the export operation and the
documentation operation (SVG rendering and markdown gallery alike) behave
exactly as if that one-entry mapping had been passed, and a caller-supplied
mapping is used unchanged in both. -/
theorem C8_default_views (Model : Type) :
    export_resolveViews none = [("front", (0, 0, 0))] ∧
    docs_resolveViews none = [("front", (0, 0, 0))] ∧
    (∀ vs : ViewMap, export_resolveViews (some vs) = vs ∧ docs_resolveViews (some vs) = vs) ∧
    (∀ (fs : FS Model) (m : Model) (name : String) (version : Int) (base_dir : FPath),
      export_cad_model fs m name version base_dir none =
        export_cad_model fs m name version base_dir (some [("front", (0, 0, 0))])) ∧
    (∀ (fs : FS Model) (m : Model) (name : String) (version : Int) (description : String)
      (base_dir : FPath) (meta : List (String × String)) (ts : String)
      (bbox : Model → Option BBox),
      export_cad_model_with_docs fs m name version description base_dir none meta ts bbox =
        export_cad_model_with_docs fs m name version description base_dir
          (some [("front", (0, 0, 0))]) meta ts bbox) :=
  ⟨rfl, rfl, fun _ => ⟨rfl, rfl⟩, fun _ _ _ _ _ => rfl, fun _ _ _ _ _ _ _ _ _ => rfl⟩

/-- C9 counterexample: with `base_dir = "out/models"` whose parent
directory "out" does not exist, the export call fails with
FileNotFoundError — `base_dir.mkdir(exist_ok=True)` carries no
`parents=True` — so an absent output root does cause the call to fail. -/
theorem C9_counterexample :
    (["out", "models"] : FPath) ∉ (⟨[], []⟩ : FS Nat).dirs ∧
    @export_cad_model Nat ⟨[], []⟩ 7 "widget" 1 ["out", "models"] none =
      .error "FileNotFoundError" :=
  ⟨by decide, rfl⟩

/-- C9 (amended): the output root is created non-recursively: if
`base_dir` is absent but its parent exists (or it lies directly under the
working directory), and no regular file occupies the three directory
paths, and no existing directory occupies a file path of the version
directory, the export creates the root and proceeds normally; only an
absent parent makes the `mkdir` raise. -/
theorem C9_base_dir_created {Model : Type} (fs : FS Model) (m : Model) (name : String)
    (version : Int) (base_dir : FPath) (views : Option ViewMap)
    (hpar : base_dir.dropLast = [] ∨ base_dir.dropLast ∈ fs.dirs)
    (hf1 : findFile fs.files base_dir = none)
    (hf2 : findFile fs.files (base_dir ++ [name]) = none)
    (hf3 : findFile fs.files (base_dir ++ [name] ++ ["v" ++ toString version]) = none)
    (hnd : ∀ x, base_dir ++ [name] ++ ["v" ++ toString version] ++ [x] ∉ fs.dirs) :
    ∃ fsf : FS Model, export_cad_model fs m name version base_dir views =
      .ok (fsf, base_dir ++ [name] ++ ["v" ++ toString version]) ∧ base_dir ∈ fsf.dirs := by
  obtain ⟨fs1, h1⟩ := mkdirExistOk_succeeds (Or.inr ⟨hf1, hpar⟩)
  obtain ⟨hf1e, hb1, hsub1, hsup1⟩ := mkdirExistOk_ok h1
  have hx2 : findFile fs1.files (base_dir ++ [name]) = none := by rw [hf1e]; exact hf2
  have hp2 : (base_dir ++ [name]).dropLast = [] ∨ (base_dir ++ [name]).dropLast ∈ fs1.dirs :=
    Or.inr (by rw [List.dropLast_concat]; exact hb1)
  obtain ⟨fs2, h2⟩ := mkdirExistOk_succeeds (Or.inr ⟨hx2, hp2⟩)
  obtain ⟨hf2e, hb2, hsub2, hsup2⟩ := mkdirExistOk_ok h2
  have hx3 : findFile fs2.files (base_dir ++ [name] ++ ["v" ++ toString version]) = none := by
    rw [hf2e, hf1e]; exact hf3
  have hp3 : (base_dir ++ [name] ++ ["v" ++ toString version]).dropLast = [] ∨
      (base_dir ++ [name] ++ ["v" ++ toString version]).dropLast ∈ fs2.dirs :=
    Or.inr (by rw [List.dropLast_concat]; exact hb2)
  obtain ⟨fs3, h3⟩ := mkdirExistOk_succeeds (Or.inr ⟨hx3, hp3⟩)
  obtain ⟨hf3e, hb3, hsub3, hsup3⟩ := mkdirExistOk_ok h3
  have hnotdir : ∀ x, base_dir ++ [name] ++ ["v" ++ toString version] ++ [x] ∉ fs3.dirs := by
    intro x hx
    rcases List.mem_cons.mp (hsup3 hx) with hx | hx
    · exact snoc_ne_self _ _ hx
    rcases List.mem_cons.mp (hsup2 hx) with hx | hx
    · exact fpath_ne_of_length (by simp) hx
    rcases List.mem_cons.mp (hsup1 hx) with hx | hx
    · exact fpath_ne_of_length (by simp) hx
    · exact hnd x hx
  obtain ⟨fs4, h4, hd4, hfl4⟩ := writeFile_succeeds_ex fs3 (base_dir ++ [name]
    ++ ["v" ++ toString version] ++ [name ++ ".stl"]) (.stl m) (hnotdir _)
    (Or.inr (by rw [List.dropLast_concat]; exact hb3))
  obtain ⟨fs5, h5⟩ := @writeSvgs_succeeds Model m name
    (base_dir ++ [name] ++ ["v" ++ toString version]) (export_resolveViews views) fs4
    (Or.inr (by rw [hd4]; exact hb3))
    (fun v hv => by rw [hd4]; exact hnotdir (svgFileName name v.1))
  refine ⟨fs5, ?_, ?_⟩
  · simp only [export_cad_model, h1, except_ok_bind, h2, h3, h4, h5]
    rfl
  · obtain ⟨hd5, _, _⟩ := writeSvgs_ok h5
    rw [hd5, hd4]
    exact hsub3 (hsub2 hb1)

/-- C9 witness: with `base_dir = "models"` directly under the working
directory and an empty filesystem, the export call succeeds. -/
theorem C9_base_dir_created_witness :
    (@export_cad_model Nat ⟨[], []⟩ 7 "widget" 1 ["models"] none).toOption ≠ none := by
  obtain ⟨fsf, hok, hbase⟩ := @C9_base_dir_created Nat ⟨[], []⟩ 7 "widget" 1 ["models"] none
    (Or.inl rfl) rfl rfl rfl (fun x => List.not_mem_nil _)
  rw [hok]
  simp [Except.toOption]

/-- C6: for every export-with-docs call with name `N` and version `V` that
completes, the markdown document written to `N.md` carries the literal
header `# N (vV)` as its first line. The hypothesis `hnl` records the
line-level reading of the document: a name containing a newline would
split this header over several physical lines. -/
theorem C6_md_header_first_line {Model : Type} {fs : FS Model} {m : Model} {name : String}
    {version : Int} {description : String} {base_dir : FPath} {views : Option ViewMap}
    {meta : List (String × String)} {ts : String} {bbox : Model → Option BBox}
    {fsf : FS Model} {d : FPath}
    (hnl : '\n' ∉ name.data)
    (hok : export_cad_model_with_docs fs m name version description base_dir views meta ts bbox
      = .ok (fsf, d)) :
    ∃ rest : List String,
      findFile fsf.files (d ++ [name ++ ".md"]) =
        some (.text (("# " ++ name ++ " (v" ++ toString version ++ ")") :: rest)) ∧
      mdLines name version description ts meta (docs_resolveViews views) (bbox m) =
        ("# " ++ name ++ " (v" ++ toString version ++ ")") :: rest := by
  obtain ⟨fsx, hx, hw⟩ := export_docs_ok hok
  obtain ⟨hfs, _, _⟩ := writeFile_ok hw
  subst hfs
  refine ⟨"" :: ((if description = "" then [] else ["## Description", description, ""])
      ++ mdTail name version ts meta (docs_resolveViews views) (bbox m)), ?_, ?_⟩
  · rw [findFile_write, if_pos rfl]
    rfl
  · rfl

/-- C6 witness: the concrete run `wRun` completed and wrote a markdown
file for "widget" version 1. -/
theorem C6_md_header_first_line_witness :
    ('\n' ∉ "widget".data) ∧
    (findFile wRes.1.files (wRes.2 ++ ["widget" ++ ".md"])).isSome = true := by
  refine ⟨by decide, ?_⟩
  obtain ⟨rest, h1, h2⟩ := @C6_md_header_first_line Nat ⟨[], []⟩ 7 "widget" 1 "a sample part"
    ["models"] none [("Material", "PLA")] "2026-01-01 12:00:00" (fun _ => some wBB)
    wRes.1 wRes.2 (by decide) rfl
  rw [h1]
  rfl

/-- C7: when `additional_metadata` is supplied as a non-empty mapping,
every pair (k, v) appears in the written markdown as the bullet line
`- **k:** v`, and the block of these bullets sits directly after the
generated/name/version bullets of the metadata section. `hnl` is the
line-level proviso for keys and values. -/
theorem C7_metadata_bullets {Model : Type} {fs : FS Model} {m : Model} {name : String}
    {version : Int} {description : String} {base_dir : FPath} {views : Option ViewMap}
    {meta : List (String × String)} {ts : String} {bbox : Model → Option BBox}
    {fsf : FS Model} {d : FPath}
    (hmeta : meta ≠ [])
    (hnl : ∀ kv ∈ meta, '\n' ∉ (metaBullet kv).data)
    (hok : export_cad_model_with_docs fs m name version description base_dir views meta ts bbox
      = .ok (fsf, d)) :
    findFile fsf.files (d ++ [name ++ ".md"]) = some (.text
      (mdLines name version description ts meta (docs_resolveViews views) (bbox m))) ∧
    mdLines name version description ts meta (docs_resolveViews views) (bbox m) =
      mdHeader name version
        ++ (if description = "" then [] else ["## Description", description, ""])
        ++ ["## Metadata", "",
            "- **Generated:** " ++ ts,
            "- **Model Name:** " ++ name,
            "- **Version:** " ++ toString version]
        ++ meta.map metaBullet
        ++ ([""]
          ++ ["## Generated Files", "",
              "- STL File: [" ++ name ++ ".stl](./" ++ name ++ ".stl)",
              "- SVG Views:"]
          ++ ["", "## Model Views", ""]
          ++ ((docs_resolveViews views).map (viewGalleryLines name)).flatten
          ++ bboxSection (bbox m)) ∧
    (∀ kv ∈ meta, metaBullet kv ∈
      mdLines name version description ts meta (docs_resolveViews views) (bbox m)) := by
  obtain ⟨fsx, hx, hw⟩ := export_docs_ok hok
  obtain ⟨hfs, _, _⟩ := writeFile_ok hw
  subst hfs
  refine ⟨?_, ?_, ?_⟩
  · rw [findFile_write, if_pos rfl]
  · simp [mdLines, mdTail, hmeta, List.append_assoc]
  · intro kv hkv
    have h1 : metaBullet kv ∈ (if meta = [] then [] else meta.map metaBullet) := by
      rw [if_neg hmeta]
      exact List.mem_map_of_mem _ hkv
    simp only [mdLines, mdTail, List.mem_append]
    tauto

/-- C7 witness: in the concrete run `wRun`, the supplied pair
("Material", "PLA") shows up as its metadata bullet line. -/
theorem C7_metadata_bullets_witness :
    ([("Material", "PLA")] ≠ ([] : List (String × String))) ∧
    metaBullet ("Material", "PLA") ∈
      mdLines "widget" 1 "a sample part" "2026-01-01 12:00:00" [("Material", "PLA")]
        (docs_resolveViews none) (some wBB) := by
  refine ⟨by decide, ?_⟩
  obtain ⟨h1, h2, h3⟩ := @C7_metadata_bullets Nat ⟨[], []⟩ 7 "widget" 1 "a sample part"
    ["models"] none [("Material", "PLA")] "2026-01-01 12:00:00" (fun _ => some wBB)
    wRes.1 wRes.2 (by decide) (by decide) rfl
  exact h3 _ (List.mem_cons_self _ _)

theorem desc_not_mem_mdHeader (name : String) (version : Int) :
    "## Description" ∉ mdHeader name version := by
  intro hmem
  simp only [mdHeader, List.mem_cons, List.not_mem_nil, or_false] at hmem
  rcases hmem with h | h
  · rw [String.append_assoc, String.append_assoc, String.append_assoc] at h
    exact str_append_ne _ _ _ (by decide) h.symm
  · exact absurd h (by decide)

theorem desc_not_mem_mdTail (name : String) (version : Int) (ts : String)
    (meta : List (String × String)) (vs : ViewMap) (bb : Option BBox) :
    "## Description" ∉ mdTail name version ts meta vs bb := by
  intro hmem
  simp only [mdTail, List.mem_append] at hmem
  rcases hmem with ((((((hA | hB) | hC) | hD) | hE) | hF) | hG)
  · simp only [List.mem_cons, List.not_mem_nil, or_false] at hA
    rcases hA with h | h | h | h | h
    · exact absurd h (by decide)
    · exact absurd h (by decide)
    · exact str_append_ne _ _ _ (by decide) h.symm
    · exact str_append_ne _ _ _ (by decide) h.symm
    · exact str_append_ne _ _ _ (by decide) h.symm
  · by_cases hm : meta = []
    · rw [if_pos hm] at hB
      simp at hB
    · rw [if_neg hm] at hB
      obtain ⟨kv, _, hkv⟩ := List.mem_map.mp hB
      rw [metaBullet, String.append_assoc, String.append_assoc] at hkv
      exact str_append_ne _ _ _ (by decide) hkv
  · simp only [List.mem_singleton] at hC
    exact absurd hC (by decide)
  · simp only [List.mem_cons, List.not_mem_nil, or_false] at hD
    rcases hD with h | h | h | h
    · exact absurd h (by decide)
    · exact absurd h (by decide)
    · rw [String.append_assoc, String.append_assoc, String.append_assoc] at h
      exact str_append_ne _ _ _ (by decide) h.symm
    · exact absurd h (by decide)
  · simp only [List.mem_cons, List.not_mem_nil, or_false] at hE
    rcases hE with h | h | h
    · exact absurd h (by decide)
    · exact absurd h (by decide)
    · exact absurd h (by decide)
  · obtain ⟨l, hl, hmem2⟩ := List.mem_flatten.mp hF
    obtain ⟨v, hv, hveq⟩ := List.mem_map.mp hl
    subst hveq
    simp only [viewGalleryLines, List.mem_cons, List.not_mem_nil, or_false] at hmem2
    rcases hmem2 with h | h | h
    · rw [String.append_assoc] at h
      exact str_append_ne _ _ _ (by decide) h.symm
    · rw [String.append_assoc] at h
      exact str_append_ne _ _ _ (by decide) h.symm
    · exact absurd h (by decide)
  · cases bb with
    | none => simp [bboxSection] at hG
    | some b =>
      simp only [bboxSection, List.mem_cons, List.not_mem_nil, or_false] at hG
      rcases hG with h | h | h | h | h | h | h
      · exact absurd h (by decide)
      · exact absurd h (by decide)
      · exact absurd h (by decide)
      · rw [String.append_assoc] at h
        exact str_append_ne _ _ _ (by decide) h.symm
      · rw [String.append_assoc] at h
        exact str_append_ne _ _ _ (by decide) h.symm
      · rw [String.append_assoc] at h
        exact str_append_ne _ _ _ (by decide) h.symm
      · exact absurd h (by decide)

/-- C10: with the default empty description the generated markdown
contains no `## Description` section; with a non-empty description exactly
one such section, holding the description text, sits between the header
and the metadata section. Provisos: the description is body text — it is
not itself the heading line and contains no newline. -/
theorem C10_description_section {Model : Type} {fs : FS Model} {m : Model} {name : String}
    {version : Int} {description : String} {base_dir : FPath} {views : Option ViewMap}
    {meta : List (String × String)} {ts : String} {bbox : Model → Option BBox}
    {fsf : FS Model} {d : FPath}
    (hd1 : description ≠ "## Description")
    (hd2 : '\n' ∉ description.data)
    (hok : export_cad_model_with_docs fs m name version description base_dir views meta ts bbox
      = .ok (fsf, d)) :
    findFile fsf.files (d ++ [name ++ ".md"]) = some (.text
      (mdLines name version description ts meta (docs_resolveViews views) (bbox m))) ∧
    (description = "" → "## Description" ∉
      mdLines name version description ts meta (docs_resolveViews views) (bbox m)) ∧
    (description ≠ "" →
      mdLines name version description ts meta (docs_resolveViews views) (bbox m) =
        mdHeader name version ++ ["## Description", description, ""]
          ++ mdTail name version ts meta (docs_resolveViews views) (bbox m) ∧
      (mdLines name version description ts meta (docs_resolveViews views)
        (bbox m)).count "## Description" = 1) := by
  obtain ⟨fsx, hx, hw⟩ := export_docs_ok hok
  obtain ⟨hfs, _, _⟩ := writeFile_ok hw
  subst hfs
  refine ⟨?_, ?_, ?_⟩
  · rw [findFile_write, if_pos rfl]
  · intro hdesc
    subst hdesc
    intro hmem
    simp only [mdLines, if_pos rfl, List.append_nil, List.mem_append] at hmem
    rcases hmem with (h | h) | h
    · exact desc_not_mem_mdHeader _ _ h
    · simp at h
    · exact desc_not_mem_mdTail _ _ _ _ _ _ h
  · intro hdesc
    constructor
    · simp [mdLines, if_neg hdesc]
    · rw [mdLines, if_neg hdesc, List.count_append, List.count_append,
        List.count_eq_zero.mpr (desc_not_mem_mdHeader name version),
        List.count_eq_zero.mpr (desc_not_mem_mdTail name version ts meta
          (docs_resolveViews views) (bbox m))]
      simp [List.count_cons, hd1]

/-- C10 witness: the concrete run `wRun` has a non-empty description and
its markdown holds exactly one `## Description` heading. -/
theorem C10_description_section_witness :
    ("a sample part" ≠ "## Description") ∧
    (mdLines "widget" 1 "a sample part" "2026-01-01 12:00:00" [("Material", "PLA")]
      (docs_resolveViews none) (some wBB)).count "## Description" = 1 := by
  refine ⟨by decide, ?_⟩
  obtain ⟨h1, h2, h3⟩ := @C10_description_section Nat ⟨[], []⟩ 7 "widget" 1 "a sample part"
    ["models"] none [("Material", "PLA")] "2026-01-01 12:00:00" (fun _ => some wBB)
    wRes.1 wRes.2 (by decide) (by decide) rfl
  exact (h3 (by decide)).2

/-- C2: a bounding-box failure during markdown generation is contained.
The dimensions section is exactly the final optional block of the
document, so the document under a failing computation is the same
document with only that section removed (header, description, metadata,
files index and view gallery unchanged); and replacing the bounding-box
computation of a completed call by an always-failing one still completes,
with the same directories and the same artifact set, only the markdown
content losing its dimensions section. -/
theorem C2_bbox_failure_contained {Model : Type} {fs : FS Model} {m : Model} {name : String}
    {version : Int} {description : String} {base_dir : FPath} {views : Option ViewMap}
    {meta : List (String × String)} {ts : String} {bbox : Model → Option BBox}
    {fsf : FS Model} {d : FPath}
    (hok : export_cad_model_with_docs fs m name version description base_dir views meta ts bbox
      = .ok (fsf, d)) :
    mdLines name version description ts meta (docs_resolveViews views) (bbox m) =
      mdLines name version description ts meta (docs_resolveViews views) none
        ++ bboxSection (bbox m) ∧
    export_cad_model_with_docs fs m name version description base_dir views meta ts
      (fun _ => none) = .ok (fsf.withFile (d ++ [name ++ ".md"])
        (.text (mdLines name version description ts meta (docs_resolveViews views) none)), d)
    := by
  obtain ⟨fsx, hx, hw⟩ := export_docs_ok hok
  obtain ⟨hfs, hnd, hpar⟩ := writeFile_ok hw
  constructor
  · simp [mdLines, mdTail, bboxSection, List.append_assoc]
  · have hw2 := writeFile_succeeds fsx (d ++ [name ++ ".md"])
      (.text (mdLines name version description ts meta (docs_resolveViews views) none)) hnd hpar
    have hstate : fsx.withFile (d ++ [name ++ ".md"]) (FileData.text
        (mdLines name version description ts meta (docs_resolveViews views) none)) =
        fsf.withFile (d ++ [name ++ ".md"]) (FileData.text
        (mdLines name version description ts meta (docs_resolveViews views) none)) := by
      rw [FS.withFile, FS.withFile, hfs]
      simp [eraseFile_cons_self]
    simp only [export_cad_model_with_docs, hx, except_ok_bind, hw2, ← hstate]
    rfl

/-- C2 witness: the concrete run with an always-failing bounding-box
computation still completes. -/
theorem C2_bbox_failure_contained_witness :
    (@export_cad_model_with_docs Nat ⟨[], []⟩ 7 "widget" 1 "a sample part" ["models"] none
      [("Material", "PLA")] "2026-01-01 12:00:00" (fun _ => none)).toOption ≠ none := by
  obtain ⟨h1, h2⟩ := @C2_bbox_failure_contained Nat ⟨[], []⟩ 7 "widget" 1 "a sample part"
    ["models"] none [("Material", "PLA")] "2026-01-01 12:00:00" (fun _ => some wBB)
    wRes.1 wRes.2 rfl
  rw [h2]
  simp [Except.toOption]

theorem dirListing_append {Model : Type} (l1 l2 : List (FPath × FileData Model)) (d : FPath) :
    dirListing (l1 ++ l2) d = dirListing l1 d ++ dirListing l2 d := by
  simp [dirListing, List.filterMap_append]

theorem dirListing_reverse {Model : Type} (l : List (FPath × FileData Model)) (d : FPath) :
    dirListing l.reverse d = (dirListing l d).reverse := by
  simp [dirListing, List.filterMap_reverse]

theorem dirListing_svgEntries {Model : Type} (d : FPath) (name : String) (m : Model)
    (vs : ViewMap) :
    dirListing (vs.map fun v => (svgPath d name v, FileData.svg m (svgViewOpts v.2))) d =
      vs.map fun v => svgFileName name v.1 := by
  induction vs with
  | nil => rfl
  | cons v rest ih =>
    rw [List.map_cons, svgPath, dirListing_cons_in, ih, List.map_cons]

/-- C1: an export-with-docs call whose version directory holds no
pre-existing files produces exactly the advertised artifact set: the call
returns `<base_dir>/N/vV/`, that directory exists afterwards, and it
contains exactly one file `N.stl`, exactly one file `N.md`, exactly one
`N_<view>.svg` per requested view, and nothing else. -/
theorem C1_export_artifact_set {Model : Type} {fs : FS Model} {m : Model} {name : String}
    {version : Int} {description : String} {base_dir : FPath} {views : Option ViewMap}
    {meta : List (String × String)} {ts : String} {bbox : Model → Option BBox}
    {fsf : FS Model} {d : FPath}
    (hnodup : ((export_resolveViews views).map Prod.fst).Nodup)
    (hfresh : ∀ x, findFile fs.files (base_dir ++ [name] ++ ["v" ++ toString version] ++ [x])
      = none)
    (hok : export_cad_model_with_docs fs m name version description base_dir views meta ts bbox
      = .ok (fsf, d)) :
    d = base_dir ++ [name] ++ ["v" ++ toString version] ∧
    d ∈ fsf.dirs ∧
    (filesIn fsf d).Perm ((name ++ ".stl") ::
      ((export_resolveViews views).map fun v => svgFileName name v.1) ++ [name ++ ".md"]) ∧
    (filesIn fsf d).count (name ++ ".stl") = 1 ∧
    (filesIn fsf d).count (name ++ ".md") = 1 ∧
    (∀ v ∈ export_resolveViews views, (filesIn fsf d).count (svgFileName name v.1) = 1) := by
  obtain ⟨fsx, hx, hw⟩ := export_docs_ok hok
  obtain ⟨hd, fs3, hf3, hbase, hproj, hvd, hsubd, hsupd, hdx, hstl_nd2, hsvg_nd2, hstl_c,
    hframe, hcontent⟩ := export_cad_model_ok hx
  subst hd
  obtain ⟨hsvg_c, hfiles⟩ := hcontent hnodup
  have hfsx := hfiles hfresh
  obtain ⟨hffs, hmd_nd, hmd_par⟩ := writeFile_ok hw
  have hffiles : fsf.files = (base_dir ++ [name] ++ ["v" ++ toString version]
      ++ [name ++ ".md"], FileData.text (mdLines name version description ts meta
      (docs_resolveViews views) (bbox m))) :: eraseFile fsx.files (base_dir ++ [name]
      ++ ["v" ++ toString version] ++ [name ++ ".md"]) := by rw [hffs]
  have hfdirs : fsf.dirs = fsx.dirs := by rw [hffs]
  have hmd_fresh : findFile fsx.files (base_dir ++ [name] ++ ["v" ++ toString version]
      ++ [name ++ ".md"]) = none := by
    rw [hframe _ (mdPath_ne_stlPath _ _) (fun v hv => mdPath_ne_svgPath _ _ _)]
    exact hfresh _
  have hL : filesIn fsf (base_dir ++ [name] ++ ["v" ++ toString version]) =
      (name ++ ".md") :: (((export_resolveViews views).map fun v =>
        svgFileName name v.1).reverse ++ ((name ++ ".stl") :: [])) := by
    rw [filesIn, hffiles, eraseFile_of_findFile_none hmd_fresh, hfsx, dirListing_cons_in,
      dirListing_append, dirListing_reverse, dirListing_svgEntries, dirListing_cons_in,
      dirListing_eq_nil _ _ hfresh]
  have hsvgNames_nodup : ((export_resolveViews views).map fun v =>
      svgFileName name v.1).Nodup := by
    rw [show ((export_resolveViews views).map fun v => svgFileName name v.1) =
      ((export_resolveViews views).map Prod.fst).map (svgFileName name) from by
        rw [List.map_map]; rfl]
    exact hnodup.map fun a b hab => svgFileName_inj name hab
  have hperm : (filesIn fsf (base_dir ++ [name] ++ ["v" ++ toString version])).Perm
      ((name ++ ".stl") :: ((export_resolveViews views).map fun v => svgFileName name v.1)
        ++ [name ++ ".md"]) := by
    rw [hL]
    have h1 : ((((export_resolveViews views).map fun v => svgFileName name v.1).reverse
        ++ ((name ++ ".stl") :: []))).Perm ((name ++ ".stl") ::
          ((export_resolveViews views).map fun v => svgFileName name v.1)) :=
      List.perm_append_comm.trans (List.Perm.cons _ (List.reverse_perm _))
    have h2 : (((export_resolveViews views).map fun v => svgFileName name v.1)
        ++ [name ++ ".md"]).Perm ((name ++ ".md") ::
          ((export_resolveViews views).map fun v => svgFileName name v.1)) :=
      List.perm_append_comm
    exact ((List.Perm.cons _ h1).trans
      (List.Perm.swap _ _ _)).trans (List.Perm.cons _ h2.symm)
  have hstl_notin_svg : (name ++ ".stl") ∉ ((export_resolveViews views).map fun v =>
      svgFileName name v.1) := by
    intro hmem
    obtain ⟨v, hv, heq⟩ := List.mem_map.mp hmem
    exact svgFileName_ne_stlName name v.1 heq
  have hmd_notin_svg : (name ++ ".md") ∉ ((export_resolveViews views).map fun v =>
      svgFileName name v.1) := by
    intro hmem
    obtain ⟨v, hv, heq⟩ := List.mem_map.mp hmem
    exact svgFileName_ne_mdName name v.1 heq
  refine ⟨rfl, ?_, hperm, ?_, ?_, ?_⟩
  · rw [hfdirs, hdx]
    exact hvd
  · rw [hperm.count_eq, List.count_append, List.count_cons_self,
      List.count_eq_zero.mpr hstl_notin_svg]
    have : (name ++ ".stl") ∉ [name ++ ".md"] := by
      simp only [List.mem_singleton]
      intro he
      exact stlName_ne_mdName name he
    rw [List.count_eq_zero.mpr this]
  · rw [hperm.count_eq, List.count_append]
    have h0 : (name ++ ".md") ∉ ((name ++ ".stl") ::
        ((export_resolveViews views).map fun v => svgFileName name v.1)) := by
      simp only [List.mem_cons]
      rintro (he | hmem)
      · exact stlName_ne_mdName name he.symm
      · exact hmd_notin_svg hmem
    rw [List.count_eq_zero.mpr h0]
    simp
  · intro v hv
    rw [hperm.count_eq, List.count_append, List.count_cons]
    have h1 : ((export_resolveViews views).map fun w => svgFileName name w.1).count
        (svgFileName name v.1) = 1 :=
      List.count_eq_one_of_mem hsvgNames_nodup (List.mem_map.mpr ⟨v, hv, rfl⟩)
    have h2 : svgFileName name v.1 ∉ [name ++ ".md"] := by
      simp only [List.mem_singleton]
      exact svgFileName_ne_mdName name v.1
    have h3 : ((name ++ ".stl") == svgFileName name v.1) = false := by
      rw [beq_eq_false_iff_ne]
      intro he
      exact svgFileName_ne_stlName name v.1 he.symm
    rw [List.count_eq_zero.mpr h2, h1, h3]
    simp

/-- C1 witness: the concrete run `wRun` produced `models/widget/v1`
holding exactly widget.stl, widget_front.svg and widget.md. -/
theorem C1_export_artifact_set_witness :
    wRes.2 = ["models", "widget", "v1"] ∧
    (filesIn wRes.1 wRes.2).count ("widget" ++ ".stl") = 1 ∧
    (filesIn wRes.1 wRes.2).count ("widget" ++ ".md") = 1 ∧
    (filesIn wRes.1 wRes.2).count (svgFileName "widget" "front") = 1 := by
  obtain ⟨h1, h2, h3, h4, h5, h6⟩ := @C1_export_artifact_set Nat ⟨[], []⟩ 7 "widget" 1
    "a sample part" ["models"] none [("Material", "PLA")] "2026-01-01 12:00:00"
    (fun _ => some wBB) wRes.1 wRes.2 (by decide) (fun x => rfl) rfl
  exact ⟨h1, h4, h5, h6 _ (List.mem_cons_self _ _)⟩

theorem writeSvgs_rewrite {Model : Type} {m : Model} {name : String} {vdir : FPath} :
    ∀ {vs : ViewMap} {fs : FS Model}, (vdir = [] ∨ vdir ∈ fs.dirs) →
      (∀ v ∈ vs, svgPath vdir name v ∉ fs.dirs) →
      (∀ v ∈ vs, findFile fs.files (svgPath vdir name v) = some (.svg m (svgViewOpts v.2))) →
      ∃ fs2, writeSvgs fs m name vdir vs = .ok fs2 ∧ fs2.dirs = fs.dirs ∧
        ∀ p, findFile fs2.files p = findFile fs.files p
  | [], fs, _, _, _ => ⟨fs, rfl, rfl, fun _ => rfl⟩
  | (vn, rot) :: rest, fs, hv, hnd, hc => by
    obtain ⟨fs1, hw1, hd1, hfl1⟩ := writeFile_succeeds_ex fs (svgPath vdir name (vn, rot))
      (.svg m (svgViewOpts rot)) (hnd _ (List.mem_cons_self _ _))
      (by rw [svgPath, List.dropLast_concat]; exact hv)
    have hlook : ∀ p, findFile fs1.files p = findFile fs.files p := by
      intro p
      rw [hfl1, findFile_write]
      by_cases hp : svgPath vdir name (vn, rot) = p
      · rw [if_pos hp, ← hp]
        exact (hc _ (List.mem_cons_self _ _)).symm
      · rw [if_neg hp]
    obtain ⟨fs2, h2, hd2, hl2⟩ := @writeSvgs_rewrite Model m name vdir rest fs1
      (by rw [hd1]; exact hv)
      (fun v hv2 => by rw [hd1]; exact hnd v (List.mem_cons_of_mem _ hv2))
      (fun v hv2 => by rw [hlook]; exact hc v (List.mem_cons_of_mem _ hv2))
    exact ⟨fs2, by rw [writeSvgs, hw1]; exact h2, by rw [hd2, hd1],
      fun p => by rw [hl2 p, hlook p]⟩

/-- The file paths an export with these arguments writes. -/
def artifactPaths (name : String) (d : FPath) (vs : ViewMap) : List FPath :=
  (d ++ [name ++ ".stl"]) :: vs.map (svgPath d name) ++ [d ++ [name ++ ".md"]]

/-- C4: repeating an export for the same (name, version) fully regenerates
the artifact set with overwrite semantics: a second call from the state
the first one left completes with the same version directory (directory
creation is idempotent), leaves exactly the same file paths — with
identical contents when it sees the same timestamp and bounding box —,
pre-existing files outside the artifact set are not cleared, and every
artifact file holds the freshly written content regardless of what was
stored there before the first call. -/
theorem C4_reexport_overwrites {Model : Type} {fs : FS Model} {m : Model} {name : String}
    {version : Int} {description : String} {base_dir : FPath} {views : Option ViewMap}
    {meta : List (String × String)} {ts : String} {bbox : Model → Option BBox}
    {s1 : FS Model} {d : FPath}
    (hnodup : ((export_resolveViews views).map Prod.fst).Nodup)
    (hok : export_cad_model_with_docs fs m name version description base_dir views meta ts bbox
      = .ok (s1, d)) :
    (∀ (ts2 : String) (bbox2 : Model → Option BBox), ∃ s2 : FS Model,
      export_cad_model_with_docs s1 m name version description base_dir views meta ts2 bbox2
        = .ok (s2, d) ∧
      s2.dirs = s1.dirs ∧
      (∀ p, (findFile s2.files p).isSome = (findFile s1.files p).isSome) ∧
      (ts2 = ts → bbox2 = bbox → ∀ p, findFile s2.files p = findFile s1.files p)) ∧
    (∀ p c, findFile fs.files p = some c →
      p ∉ artifactPaths name d (export_resolveViews views) →
      findFile s1.files p = some c) ∧
    findFile s1.files (d ++ [name ++ ".stl"]) = some (.stl m) ∧
    findFile s1.files (d ++ [name ++ ".md"]) = some (.text (mdLines name version description
      ts meta (docs_resolveViews views) (bbox m))) ∧
    (∀ v ∈ export_resolveViews views, findFile s1.files (svgPath d name v) =
      some (.svg m (svgViewOpts v.2))) := by
  obtain ⟨fsx, hx, hw⟩ := export_docs_ok hok
  obtain ⟨hd, fs3, hf3, hbase, hproj, hvd, hsubd, hsupd, hdx, hstl_nd2, hsvg_nd2, hstl_c,
    hframe, hcontent⟩ := export_cad_model_ok hx
  subst hd
  obtain ⟨hsvg_c, _⟩ := hcontent hnodup
  obtain ⟨hffs, hmd_nd, hmd_par⟩ := writeFile_ok hw
  have hffiles : s1.files = (base_dir ++ [name] ++ ["v" ++ toString version]
      ++ [name ++ ".md"], FileData.text (mdLines name version description ts meta
      (docs_resolveViews views) (bbox m))) :: eraseFile fsx.files (base_dir ++ [name]
      ++ ["v" ++ toString version] ++ [name ++ ".md"]) := by rw [hffs]
  have hs1dirs : s1.dirs = fsx.dirs := by rw [hffs]
  have hstl1 : findFile s1.files (base_dir ++ [name] ++ ["v" ++ toString version]
      ++ [name ++ ".stl"]) = some (.stl m) := by
    rw [hffiles, findFile_write, if_neg (mdPath_ne_stlPath _ _)]
    exact hstl_c
  have hmd1 : findFile s1.files (base_dir ++ [name] ++ ["v" ++ toString version]
      ++ [name ++ ".md"]) = some (.text (mdLines name version description ts meta
      (docs_resolveViews views) (bbox m))) := by
    rw [hffiles, findFile_write, if_pos rfl]
  have hsvg1 : ∀ v ∈ export_resolveViews views,
      findFile s1.files (svgPath (base_dir ++ [name] ++ ["v" ++ toString version]) name v) =
        some (.svg m (svgViewOpts v.2)) := by
    intro v hv
    rw [hffiles, findFile_write, if_neg (mdPath_ne_svgPath _ _ _)]
    exact hsvg_c v hv
  refine ⟨?_, ?_, hstl1, hmd1, hsvg1⟩
  · intro ts2 bbox2
    have hb1 : base_dir ∈ s1.dirs := by rw [hs1dirs, hdx]; exact hbase
    have hb2 : base_dir ++ [name] ∈ s1.dirs := by rw [hs1dirs, hdx]; exact hproj
    have hb3 : base_dir ++ [name] ++ ["v" ++ toString version] ∈ s1.dirs := by
      rw [hs1dirs, hdx]; exact hvd
    obtain ⟨fsa, hwa, hda, hfla⟩ := writeFile_succeeds_ex s1 (base_dir ++ [name]
      ++ ["v" ++ toString version] ++ [name ++ ".stl"]) (.stl m)
      (by rw [hs1dirs, hdx]; exact hstl_nd2)
      (Or.inr (by rw [List.dropLast_concat]; exact hb3))
    have hlooka : ∀ p, findFile fsa.files p = findFile s1.files p := by
      intro p
      rw [hfla, findFile_write]
      by_cases hp : base_dir ++ [name] ++ ["v" ++ toString version] ++ [name ++ ".stl"] = p
      · rw [if_pos hp, ← hp]
        exact hstl1.symm
      · rw [if_neg hp]
    obtain ⟨fsb, hwb, hdb, hlb⟩ := @writeSvgs_rewrite Model m name
      (base_dir ++ [name] ++ ["v" ++ toString version]) (export_resolveViews views) fsa
      (Or.inr (by rw [hda]; exact hb3))
      (fun v hv2 => by rw [hda, hs1dirs, hdx]; exact hsvg_nd2 v hv2)
      (fun v hv2 => by rw [hlooka]; exact hsvg1 v hv2)
    have hlookb : ∀ p, findFile fsb.files p = findFile s1.files p := by
      intro p
      rw [hlb p, hlooka p]
    obtain ⟨s2, hwc, hdc, hflc⟩ := writeFile_succeeds_ex fsb (base_dir ++ [name]
      ++ ["v" ++ toString version] ++ [name ++ ".md"])
      (.text (mdLines name version description ts2 meta (docs_resolveViews views) (bbox2 m)))
      (by rw [hdb, hda, hs1dirs]; exact hmd_nd)
      (Or.inr (by rw [List.dropLast_concat, hdb, hda]; exact hb3))
    refine ⟨s2, ?_, ?_, ?_, ?_⟩
    · simp only [export_cad_model_with_docs, export_cad_model, mkdirExistOk_mem hb1,
        except_ok_bind, mkdirExistOk_mem hb2, mkdirExistOk_mem hb3, hwa, hwb,
        except_pure_eq_ok, hwc]
    · rw [hdc, hdb, hda]
    · intro p
      rw [hflc, findFile_write]
      by_cases hp : base_dir ++ [name] ++ ["v" ++ toString version] ++ [name ++ ".md"] = p
      · rw [if_pos hp, ← hp, hmd1]
        rfl
      · rw [if_neg hp, hlookb p]
    · intro hts hbb p
      subst hts
      subst hbb
      rw [hflc, findFile_write]
      by_cases hp : base_dir ++ [name] ++ ["v" ++ toString version] ++ [name ++ ".md"] = p
      · rw [if_pos hp, ← hp, hmd1]
      · rw [if_neg hp, hlookb p]
  · intro p c hpc hnp
    have hnp1 : p ≠ base_dir ++ [name] ++ ["v" ++ toString version] ++ [name ++ ".stl"] := by
      intro he
      apply hnp
      rw [artifactPaths, he]
      exact List.mem_append.mpr (Or.inl (List.mem_cons_self _ _))
    have hnp3 : p ≠ base_dir ++ [name] ++ ["v" ++ toString version] ++ [name ++ ".md"] := by
      intro he
      apply hnp
      rw [artifactPaths, he]
      exact List.mem_append.mpr (Or.inr (List.mem_singleton.mpr rfl))
    have hnp2 : ∀ v ∈ export_resolveViews views,
        p ≠ svgPath (base_dir ++ [name] ++ ["v" ++ toString version]) name v := by
      intro v hv he
      apply hnp
      rw [artifactPaths]
      exact List.mem_append.mpr (Or.inl (List.mem_cons_of_mem _
        (List.mem_map.mpr ⟨v, hv, he.symm⟩)))
    rw [hffiles, findFile_write, if_neg fun he => hnp3 he.symm, hframe p hnp1 hnp2]
    exact hpc

/-- C4 witness: re-running the concrete export from the state it produced
completes again. -/
theorem C4_reexport_overwrites_witness :
    (@export_cad_model_with_docs Nat wRes.1 7 "widget" 1 "a sample part" ["models"] none
      [("Material", "PLA")] "2026-01-01 12:00:00" (fun _ => some wBB)).toOption ≠ none := by
  obtain ⟨ha, hb, hc1, hc2, hc3⟩ := @C4_reexport_overwrites Nat ⟨[], []⟩ 7 "widget" 1
    "a sample part" ["models"] none [("Material", "PLA")] "2026-01-01 12:00:00"
    (fun _ => some wBB) wRes.1 wRes.2 (by decide) rfl
  obtain ⟨s2, h2, _⟩ := ha "2026-01-01 12:00:00" (fun _ => some wBB)
  rw [h2]
  simp [Except.toOption]

example : defaultName "scripts/treadmill-cover.py" = "treadmill-cover" := by decide

example :
    @export_cad_model Nat ⟨[], []⟩ 7 "w" 1 ["m"] none =
      .ok (⟨[["m", "w", "v1"], ["m", "w"], ["m"]],
        [(["m", "w", "v1", "w_front.svg"], .svg 7 (svgViewOpts (0, 0, 0))),
         (["m", "w", "v1", "w.stl"], .stl 7)]⟩, ["m", "w", "v1"]) := rfl

end CadScripts
